import Mathlib

/-!
Verification of the prevIA Odds Resolution & Model-Evaluation Pipeline.

The repository ships the storage schemas (`odds.odds_events`,
`odds.odds_snapshots_1x2`, `odds.audit_predictions`,
`core.fixtures`, `core.team_season_stats`), the frontend API contract
(`src/frontend/src/api/contracts.ts`), the Odds Intel view
(`src/frontend/src/views/OddsIntel.tsx`) and the
`team_season_stats_v1` aggregation SQL.  The pipeline functions
themselves (Resolver, Normalizer, Evaluator, Recorder, Backfiller) are
declared by those contracts but their bodies are not part of the
sources here; where a definition below models such a function, its doc
comment says so explicitly and follows the specification text.

Numeric values (decimal odds, probabilities) are modelled as rationals;
timestamps and identifiers as integers or strings.
-/

set_option autoImplicit false

namespace PrevIA

/-- Outcome side of a 1x2 market, the `"H" | "D" | "A"` union of
`contracts.ts` (`best_side`, `outcome`). -/
inductive Side where
  | H
  | D
  | A
deriving DecidableEq, Repr

/-- A triple of rationals keyed by side, mirroring
`Odds1x2 = { H: number; D: number; A: number }` in
`src/frontend/src/api/contracts.ts`. -/
structure Triple where
  h : ℚ
  d : ℚ
  a : ℚ
deriving DecidableEq, Repr

/-- Component of a `Triple` selected by a `Side`. -/
def Triple.get (t : Triple) : Side → ℚ
  | Side.H => t.h
  | Side.D => t.d
  | Side.A => t.a

/-- Nullable decimal odds of one snapshot row
(`odds.odds_snapshots_1x2`: `odds_home NUMERIC NULL`, `odds_draw`,
`odds_away`). -/
structure RawOdds where
  odds_home : Option ℚ
  odds_draw : Option ℚ
  odds_away : Option ℚ
deriving DecidableEq, Repr

/-- `OddsMarketProbs` of `contracts.ts` (lines 144-148): raw implied
probabilities, no-vig probabilities, and the bookmaker overround. -/
structure OddsMarketProbs where
  raw : Triple
  novig : Triple
  overround : ℚ
deriving DecidableEq, Repr

/-- A market is complete when all three odds are present and `> 1`
(spec §4.2: "if any of the three odds is null, zero, or ≤ 1.0, the
market is incomplete"). -/
def marketComplete (o : RawOdds) : Prop :=
  ∃ h d a : ℚ, o.odds_home = some h ∧ o.odds_draw = some d ∧
    o.odds_away = some a ∧ 1 < h ∧ 1 < d ∧ 1 < a

/-- Boolean test for `marketComplete`, usable in executable code. -/
def marketCompleteb (o : RawOdds) : Bool :=
  match o.odds_home, o.odds_draw, o.odds_away with
  | some h, some d, some a => decide (1 < h) && decide (1 < d) && decide (1 < a)
  | _, _, _ => false

/-- The boolean market-completeness test agrees with the predicate. -/
theorem marketCompleteb_iff (o : RawOdds) :
    marketCompleteb o = true ↔ marketComplete o := by
  rcases o with ⟨(_ | h), (_ | d), (_ | a)⟩ <;>
    simp [marketCompleteb, marketComplete, and_assoc]

/-- Modelled from the spec: the Market Normalizer (§4.2) itself is not
under `src/`; only its output contract `OddsMarketProbs` is.  On a
complete market it produces `r_i = 1/odds_i`,
`p_i = r_i / (r_H + r_D + r_A)` (proportional no-vig) and
`overround = (r_H + r_D + r_A) − 1`; otherwise nothing. -/
def normalizeMarket (o : RawOdds) : Option OddsMarketProbs :=
  match o.odds_home, o.odds_draw, o.odds_away with
  | some h, some d, some a =>
      if 1 < h ∧ 1 < d ∧ 1 < a then
        let rh := 1 / h
        let rd := 1 / d
        let ra := 1 / a
        let s := rh + rd + ra
        some { raw := ⟨rh, rd, ra⟩
               novig := ⟨rh / s, rd / s, ra / s⟩
               overround := s - 1 }
      else none
  | _, _, _ => none

/-- On a complete market the sum of the raw implied probabilities is
positive. -/
theorem rawSum_pos {h d a : ℚ} (hh : 1 < h) (hd : 1 < d) (ha : 1 < a) :
    0 < 1 / h + 1 / d + 1 / a := by
  have h0 : (0:ℚ) < h := lt_trans one_pos hh
  have d0 : (0:ℚ) < d := lt_trans one_pos hd
  have a0 : (0:ℚ) < a := lt_trans one_pos ha
  positivity

/-- C1, counterexample: the odds triple `(4, 4, 4)` has every odd
`> 1`, yet the normalizer's overround is `3/4 − 1 = −1/4 < 0`, so the
claimed `overround ≥ 0` fails. -/
theorem C1_overround_counterexample :
    (1:ℚ) < 4 ∧
      normalizeMarket ⟨some 4, some 4, some 4⟩ =
        some { raw := ⟨1/4, 1/4, 1/4⟩
               novig := ⟨1/3, 1/3, 1/3⟩
               overround := -(1/4) } ∧
      ¬ (0 ≤ (-(1/4) : ℚ)) := by
  refine ⟨by norm_num, ?_, by norm_num⟩
  simp only [normalizeMarket]
  norm_num

/-- C1 (amended): for every complete odds triple the normalizer
produces `r_i = 1/odds_i`, no-vig `p_i = r_i / (r_H + r_D + r_A)`
summing to exactly 1 (hence within `1e-9`), and
`overround = (r_H + r_D + r_A) − 1`, which is `≥ 0` exactly when the
raw implied probabilities sum to at least 1. -/
theorem C1_market_normalizer (h d a : ℚ)
    (hh : 1 < h) (hd : 1 < d) (ha : 1 < a) :
    ∃ m : OddsMarketProbs,
      normalizeMarket ⟨some h, some d, some a⟩ = some m ∧
      m.raw = ⟨1/h, 1/d, 1/a⟩ ∧
      m.novig.h = m.raw.h / (m.raw.h + m.raw.d + m.raw.a) ∧
      m.novig.d = m.raw.d / (m.raw.h + m.raw.d + m.raw.a) ∧
      m.novig.a = m.raw.a / (m.raw.h + m.raw.d + m.raw.a) ∧
      m.novig.h + m.novig.d + m.novig.a = 1 ∧
      |m.novig.h + m.novig.d + m.novig.a - 1| ≤ 1/1000000000 ∧
      m.overround = (1/h + 1/d + 1/a) - 1 ∧
      (0 ≤ m.overround ↔ 1 ≤ 1/h + 1/d + 1/a) := by
  have hs : 0 < 1 / h + 1 / d + 1 / a := rawSum_pos hh hd ha
  have hs0 : 1 / h + 1 / d + 1 / a ≠ 0 := ne_of_gt hs
  have hsum : (1/h) / (1/h + 1/d + 1/a) + (1/d) / (1/h + 1/d + 1/a) +
      (1/a) / (1/h + 1/d + 1/a) = 1 := by
    rw [div_add_div_same, div_add_div_same, div_self hs0]
  refine ⟨{ raw := ⟨1/h, 1/d, 1/a⟩
            novig := ⟨(1/h) / (1/h + 1/d + 1/a), (1/d) / (1/h + 1/d + 1/a),
                      (1/a) / (1/h + 1/d + 1/a)⟩
            overround := (1/h + 1/d + 1/a) - 1 },
    ?_, rfl, rfl, rfl, rfl, hsum, ?_, rfl, sub_nonneg⟩
  · simp only [normalizeMarket]
    rw [if_pos ⟨hh, hd, ha⟩]
  · show |(1/h) / (1/h + 1/d + 1/a) + (1/d) / (1/h + 1/d + 1/a) +
      (1/a) / (1/h + 1/d + 1/a) - 1| ≤ 1/1000000000
    rw [hsum]
    norm_num

/-- C1 witness at the concrete complete triple `(2, 4, 4)`:
`r = (1/2, 1/4, 1/4)`, `Σ r = 1`, no-vig `(1/2, 1/4, 1/4)`,
`overround = 0`. -/
theorem C1_market_normalizer_witness :
    ∃ m : OddsMarketProbs,
      normalizeMarket ⟨some 2, some 4, some 4⟩ = some m ∧
      m.raw = ⟨1/2, 1/4, 1/4⟩ ∧
      m.novig.h = m.raw.h / (m.raw.h + m.raw.d + m.raw.a) ∧
      m.novig.d = m.raw.d / (m.raw.h + m.raw.d + m.raw.a) ∧
      m.novig.a = m.raw.a / (m.raw.h + m.raw.d + m.raw.a) ∧
      m.novig.h + m.novig.d + m.novig.a = 1 ∧
      |m.novig.h + m.novig.d + m.novig.a - 1| ≤ 1/1000000000 ∧
      m.overround = (1/2 + 1/4 + 1/4 : ℚ) - 1 ∧
      (0 ≤ m.overround ↔ 1 ≤ (1/2 + 1/4 + 1/4 : ℚ)) :=
  C1_market_normalizer 2 4 4 (by norm_num) (by norm_num) (by norm_num)

/-! ## Model Evaluator -/

/-- Modelled from the spec: the Model Evaluator (§4.3) is not under
`src/`; its output contract `OddsModelEval` (`contracts.ts` lines
172-182) is.  `EV_i = p_model_i × odds_i − 1`, decimal expected value
per unit staked. -/
def evDecimal (p odds : Triple) : Triple :=
  ⟨p.h * odds.h - 1, p.d * odds.d - 1, p.a * odds.a - 1⟩

/-- Modelled from the spec: `edge_i = p_model_i − p_novig_i`
(`edge_vs_market` of `OddsModelEval`). -/
def edgeVsMarket (p novig : Triple) : Triple :=
  ⟨p.h - novig.h, p.d - novig.d, p.a - novig.a⟩

/-- Modelled from the spec: `best_side = argmax_i EV_i`, ties broken by
the fixed priority `H > D > A`: start from `H` and move only on a
strict improvement. -/
def bestPick (ev : Triple) : Side × ℚ :=
  let b1 : Side × ℚ := (Side.H, ev.h)
  let b2 : Side × ℚ := if b1.2 < ev.d then (Side.D, ev.d) else b1
  if b2.2 < ev.a then (Side.A, ev.a) else b2

/-- The pick is one of the three sides and carries that side's value. -/
theorem bestPick_get (ev : Triple) :
    (bestPick ev).2 = ev.get (bestPick ev).1 := by
  simp only [bestPick]
  split_ifs <;> rfl

/-- The pick's value dominates every side. -/
theorem bestPick_le (ev : Triple) (s : Side) :
    ev.get s ≤ (bestPick ev).2 := by
  simp only [bestPick]
  cases s <;> split_ifs <;> simp_all [Triple.get] <;> linarith

/-- Characterization of the tie-breaking priority `H > D > A`. -/
theorem bestPick_side_iff (ev : Triple) :
    ((bestPick ev).1 = Side.H ↔ ev.d ≤ ev.h ∧ ev.a ≤ ev.h) ∧
    ((bestPick ev).1 = Side.D ↔ ev.h < ev.d ∧ ev.a ≤ ev.d) ∧
    ((bestPick ev).1 = Side.A ↔ ev.h < ev.a ∧ ev.d < ev.a) := by
  simp only [bestPick]
  split_ifs with hd ha ha2
  · -- ev.h < ev.d and ev.d < ev.a: pick is A
    refine ⟨iff_of_false (by simp) ?_, iff_of_false (by simp) ?_,
      iff_of_true rfl ⟨lt_trans hd ha, ha⟩⟩
    · rintro ⟨x, _⟩; exact absurd hd (not_lt.mpr x)
    · rintro ⟨_, y⟩; exact absurd ha (not_lt.mpr y)
  · -- ev.h < ev.d and ev.a ≤ ev.d: pick is D
    refine ⟨iff_of_false (by simp) ?_, iff_of_true rfl ⟨hd, not_lt.mp ha⟩,
      iff_of_false (by simp) ?_⟩
    · rintro ⟨x, _⟩; exact absurd hd (not_lt.mpr x)
    · rintro ⟨_, y⟩; exact absurd y (not_lt.mpr (not_lt.mp ha))
  · -- ev.d ≤ ev.h and ev.h < ev.a: pick is A
    refine ⟨iff_of_false (by simp) ?_, iff_of_false (by simp) ?_,
      iff_of_true rfl ⟨ha2, lt_of_le_of_lt (not_lt.mp hd) ha2⟩⟩
    · rintro ⟨_, y⟩; exact absurd ha2 (not_lt.mpr y)
    · rintro ⟨x, _⟩; exact absurd x hd
  · -- ev.d ≤ ev.h and ev.a ≤ ev.h: pick is H
    refine ⟨iff_of_true rfl ⟨not_lt.mp hd, not_lt.mp ha2⟩,
      iff_of_false (by simp) ?_, iff_of_false (by simp) ?_⟩
    · rintro ⟨x, _⟩; exact absurd x (not_lt.mpr (not_lt.mp hd))
    · rintro ⟨x, _⟩; exact absurd x (not_lt.mpr (not_lt.mp ha2))

/-- C3: on every successful evaluation the Evaluator computes
`EV_i = p_model_i · odds_i − 1`, picks `best_side` maximizing EV with
ties broken by the fixed priority `H > D > A`, and sets `best_ev` to
the EV of that side; `p_model_H = 0.55` with `odds_H = 2.0` gives
`EV_H = 0.10`. -/
theorem C3_model_evaluator (p odds : Triple) :
    (∀ s : Side, (evDecimal p odds).get s = p.get s * odds.get s - 1) ∧
    (∀ s : Side, (evDecimal p odds).get s ≤ (bestPick (evDecimal p odds)).2) ∧
    (bestPick (evDecimal p odds)).2 =
      (evDecimal p odds).get (bestPick (evDecimal p odds)).1 ∧
    ((bestPick (evDecimal p odds)).1 = Side.H ↔
      (evDecimal p odds).d ≤ (evDecimal p odds).h ∧
      (evDecimal p odds).a ≤ (evDecimal p odds).h) ∧
    ((bestPick (evDecimal p odds)).1 = Side.D ↔
      (evDecimal p odds).h < (evDecimal p odds).d ∧
      (evDecimal p odds).a ≤ (evDecimal p odds).d) ∧
    ((bestPick (evDecimal p odds)).1 = Side.A ↔
      (evDecimal p odds).h < (evDecimal p odds).a ∧
      (evDecimal p odds).d < (evDecimal p odds).a) ∧
    (p.h = 11/20 → odds.h = 2 → (evDecimal p odds).h = 1/10) := by
  obtain ⟨h1, h2, h3⟩ := bestPick_side_iff (evDecimal p odds)
  refine ⟨?_, bestPick_le (evDecimal p odds), bestPick_get (evDecimal p odds),
    h1, h2, h3, ?_⟩
  · intro s; cases s <;> rfl
  · intro hp ho
    simp only [evDecimal, hp, ho]
    norm_num

/-- C3 witness: at `p = (0.55, 0.25, 0.20)` and
`odds = (2.0, 3.5, 4.0)` the pick is concrete; in particular
`EV_H = 0.10` and the pick's value equals the EV of its side. -/
theorem C3_model_evaluator_witness :
    (evDecimal ⟨11/20, 1/4, 1/5⟩ ⟨2, 7/2, 4⟩).h = 1/10 ∧
    (bestPick (evDecimal ⟨11/20, 1/4, 1/5⟩ ⟨2, 7/2, 4⟩)).2 =
      (evDecimal ⟨11/20, 1/4, 1/5⟩ ⟨2, 7/2, 4⟩).get
        (bestPick (evDecimal ⟨11/20, 1/4, 1/5⟩ ⟨2, 7/2, 4⟩)).1 :=
  ⟨(C3_model_evaluator ⟨11/20, 1/4, 1/5⟩ ⟨2, 7/2, 4⟩).2.2.2.2.2.2
      (by norm_num) (by norm_num),
   (C3_model_evaluator ⟨11/20, 1/4, 1/5⟩ ⟨2, 7/2, 4⟩).2.2.1⟩

/-! ## Audit Recorder -/

/-- Confidence tier of a name-to-identity match, the
`"EXACT" | "ILIKE" | "FUZZY" | "NONE"` union of
`OddsResolved.match_confidence` in `contracts.ts` (lines 150-155). -/
inductive MatchConfidence where
  | EXACT
  | ILIKE
  | FUZZY
  | NONE
deriving DecidableEq, Repr

/-- Resolution result attached to an event (`OddsResolved` of
`contracts.ts`; the mutable resolution columns of
`odds.odds_events`). -/
structure OddsResolved where
  home_team_id : Option ℤ
  away_team_id : Option ℤ
  fixture_id : Option ℤ
  match_confidence : MatchConfidence
deriving DecidableEq, Repr

/-- Value fields of one `odds.audit_predictions` row: every column
apart from the key `(event_id, artifact_filename)` and the two
timestamps `created_at_utc` / `updated_at_utc`. -/
structure AuditValues where
  sport_key : String
  kickoff_utc : Option ℤ
  captured_at_utc : Option ℤ
  bookmaker : Option String
  market : Option String
  league_id : Option ℤ
  season : Option ℤ
  fixture_id : Option ℤ
  home_team_id : Option ℤ
  away_team_id : Option ℤ
  match_confidence : Option MatchConfidence
  p_mkt_h : Option ℚ
  p_mkt_d : Option ℚ
  p_mkt_a : Option ℚ
  p_model_h : Option ℚ
  p_model_d : Option ℚ
  p_model_a : Option ℚ
  odds_h : Option ℚ
  odds_d : Option ℚ
  odds_a : Option ℚ
  best_side : Option Side
  best_ev : Option ℚ
  status : String
  reason : Option String
deriving DecidableEq, Repr

/-- One `odds.audit_predictions` row (`AuditPredictionRecord` of the
spec): unique key, value fields, and the two timestamps. -/
structure AuditRecord where
  event_id : String
  artifact_filename : String
  values : AuditValues
  created_at_utc : ℤ
  updated_at_utc : ℤ
deriving DecidableEq, Repr

/-- The unique key of a record (constraint
`uq_odds_audit_event_artifact`). -/
def AuditRecord.key (r : AuditRecord) : String × String :=
  (r.event_id, r.artifact_filename)

/-- Key test against a given `(event_id, artifact_filename)`. -/
def keyMatches (eid art : String) (r : AuditRecord) : Bool :=
  decide (r.event_id = eid) && decide (r.artifact_filename = art)

/-- The audit store: the rows of `odds.audit_predictions`. -/
def AuditStore : Type := List AuditRecord

/-- Store invariant: pairwise distinct `(event_id, artifact_filename)`
keys, as enforced by `uq_odds_audit_event_artifact`. -/
def KeysUnique (store : List AuditRecord) : Prop :=
  store.Pairwise (fun r s => r.key ≠ s.key)

/-- First (and under `KeysUnique` only) record for a key. -/
def findAudit (store : List AuditRecord) (eid art : String) :
    Option AuditRecord :=
  store.find? (keyMatches eid art)

/-- Overwrite pass of the upsert: replace the value fields and
`updated_at_utc` of a key-matching record, leave others alone. -/
def overwriteIf (eid art : String) (v : AuditValues) (now : ℤ)
    (r : AuditRecord) : AuditRecord :=
  if keyMatches eid art r then { r with values := v, updated_at_utc := now }
  else r

/-- Modelled from the spec: the Audit Recorder upsert (§4.4) is not
under `src/`; only the `uq_odds_audit_event_artifact` uniqueness
constraint it relies on is.  If a record for the key exists, all value
fields and `updated_at_utc` of every matching record are overwritten
in place (`created_at_utc` untouched); otherwise a new record is
appended with `created_at_utc = updated_at_utc = now`. -/
def upsertAudit (store : List AuditRecord) (eid art : String)
    (v : AuditValues) (now : ℤ) : List AuditRecord :=
  if store.any (keyMatches eid art) then
    store.map (overwriteIf eid art v now)
  else
    store ++ [{ event_id := eid, artifact_filename := art, values := v,
                created_at_utc := now, updated_at_utc := now }]

theorem keyMatches_iff (eid art : String) (r : AuditRecord) :
    keyMatches eid art r = true ↔ r.event_id = eid ∧ r.artifact_filename = art := by
  simp [keyMatches]

/-- The overwrite function of the upsert does not change a record's
key, hence does not change key matching. -/
theorem keyMatches_overwrite (e2 a2 : String) (v : AuditValues)
    (now : ℤ) (r : AuditRecord) :
    keyMatches e2 a2 { r with values := v, updated_at_utc := now } =
      keyMatches e2 a2 r := rfl

/-- `find?` after mapping a key-preserving function. -/
theorem find?_map_keyPreserving (g : AuditRecord → AuditRecord)
    (p : AuditRecord → Bool) (hp : ∀ r, p (g r) = p r) :
    ∀ l : List AuditRecord, (l.map g).find? p = (l.find? p).map g := by
  intro l
  induction l with
  | nil => rfl
  | cons r t ih =>
      by_cases h : p r = true
      · simp [List.find?, hp, h]
      · rw [Bool.not_eq_true] at h
        simp [List.find?, hp, h, ih]

/-- A list with no match has no `find?` result. -/
theorem find?_eq_none_of_any_false (p : AuditRecord → Bool) :
    ∀ l : List AuditRecord, l.any p = false → l.find? p = none := by
  intro l
  induction l with
  | nil => intro _; rfl
  | cons r t ih =>
      intro h
      simp only [List.any_cons, Bool.or_eq_false_iff] at h
      simp [List.find?, h.1, ih h.2]

/-- `find?` over an append whose left part has no match. -/
theorem find?_append_of_any_false (p : AuditRecord → Bool)
    (l₁ l₂ : List AuditRecord) (h : l₁.any p = false) :
    (l₁ ++ l₂).find? p = l₂.find? p := by
  induction l₁ with
  | nil => rfl
  | cons r t ih =>
      simp only [List.any_cons, Bool.or_eq_false_iff] at h
      simp [List.find?, h.1, ih h.2]

/-- `any` is false exactly when the predicate fails on every member. -/
theorem any_eq_false_iff (p : AuditRecord → Bool) (l : List AuditRecord) :
    l.any p = false ↔ ∀ r ∈ l, p r = false := by
  induction l with
  | nil => simp
  | cons r t ih => simp [List.any_cons, ih, Bool.or_eq_false_iff]

/-- `find? = none` forces `any = false`. -/
theorem any_eq_false_of_find?_eq_none (p : AuditRecord → Bool)
    (l : List AuditRecord) (h : l.find? p = none) : l.any p = false := by
  induction l with
  | nil => rfl
  | cons r t ih =>
      by_cases hr : p r = true
      · rw [List.find?_cons_of_pos _ hr] at h; cases h
      · rw [Bool.not_eq_true] at hr
        rw [List.find?_cons_of_neg _ (by simp [hr])] at h
        simp [List.any_cons, hr, ih h]

/-- `overwriteIf` preserves keys. -/
theorem key_overwriteIf (eid art : String) (v : AuditValues) (now : ℤ)
    (r : AuditRecord) : (overwriteIf eid art v now r).key = r.key := by
  unfold overwriteIf
  split_ifs <;> rfl

/-- `overwriteIf` preserves key matching. -/
theorem keyMatches_overwriteIf (e2 a2 eid art : String) (v : AuditValues)
    (now : ℤ) (r : AuditRecord) :
    keyMatches e2 a2 (overwriteIf eid art v now r) = keyMatches e2 a2 r := by
  unfold overwriteIf
  split_ifs <;> rfl

/-- Upserting preserves the key-uniqueness invariant. -/
theorem upsert_keysUnique (store : List AuditRecord) (eid art : String)
    (v : AuditValues) (now : ℤ) (hinv : KeysUnique store) :
    KeysUnique (upsertAudit store eid art v now) := by
  unfold upsertAudit KeysUnique
  split_ifs with hany
  · exact List.Pairwise.map _
      (fun a b h => by
        rw [key_overwriteIf, key_overwriteIf]; exact h) hinv
  · rw [List.pairwise_append]
    refine ⟨hinv, List.pairwise_singleton _ _, ?_⟩
    intro a ha b hb
    simp only [List.mem_singleton] at hb
    subst hb
    rw [Bool.not_eq_true] at hany
    have := (any_eq_false_iff (keyMatches eid art) store).mp hany a ha
    simp only [keyMatches, Bool.and_eq_false_iff, decide_eq_false_iff_not] at this
    intro hk
    have he : a.event_id = eid ∧ a.artifact_filename = art := by
      have h1 := congrArg Prod.fst hk
      have h2 := congrArg Prod.snd hk
      exact ⟨h1, h2⟩
    rcases this with h | h
    · exact h he.1
    · exact h he.2

/-- Upserting an existing key maps `overwriteIf` over the store. -/
theorem upsert_existing (store : List AuditRecord) (eid art : String)
    (v : AuditValues) (now : ℤ) (hany : store.any (keyMatches eid art) = true) :
    upsertAudit store eid art v now = store.map (overwriteIf eid art v now) := by
  unfold upsertAudit
  rw [if_pos hany]

/-- C2: for every key `(event_id, artifact_filename)` the store keeps
at most one record (key uniqueness is preserved); recording for an
existing key overwrites the value fields and `updated_at_utc` of that
single record, keeping `created_at_utc` and the store size; recording
for a fresh key appends one record whose `created_at_utc` (and
`updated_at_utc`) is the insertion time. -/
theorem C2_audit_recorder (store : List AuditRecord) (eid art : String)
    (v : AuditValues) (now : ℤ) (hinv : KeysUnique store) :
    KeysUnique (upsertAudit store eid art v now) ∧
    (∀ r0, findAudit store eid art = some r0 →
      findAudit (upsertAudit store eid art v now) eid art =
        some { r0 with values := v, updated_at_utc := now } ∧
      (upsertAudit store eid art v now).length = store.length) ∧
    (findAudit store eid art = none →
      findAudit (upsertAudit store eid art v now) eid art =
        some { event_id := eid, artifact_filename := art, values := v,
               created_at_utc := now, updated_at_utc := now } ∧
      (upsertAudit store eid art v now).length = store.length + 1) := by
  refine ⟨upsert_keysUnique store eid art v now hinv, ?_, ?_⟩
  · intro r0 hfind
    have hp : keyMatches eid art r0 = true := List.find?_some hfind
    have hmem : r0 ∈ store := List.mem_of_find?_eq_some hfind
    have hany : store.any (keyMatches eid art) = true :=
      List.any_eq_true.mpr ⟨r0, hmem, hp⟩
    rw [upsert_existing store eid art v now hany]
    constructor
    · unfold findAudit
      rw [find?_map_keyPreserving (overwriteIf eid art v now)
        (keyMatches eid art) (keyMatches_overwriteIf eid art eid art v now)]
      unfold findAudit at hfind
      rw [hfind]
      simp only [Option.map_some', overwriteIf, if_pos hp]
    · exact List.length_map store _
  · intro hfind
    have hany : store.any (keyMatches eid art) = false :=
      any_eq_false_of_find?_eq_none _ _ hfind
    unfold upsertAudit
    rw [if_neg (by simp [hany])]
    constructor
    · unfold findAudit
      rw [find?_append_of_any_false _ _ _ hany]
      simp [List.find?, keyMatches]
    · simp

/-- A neutral set of value fields used by concrete witnesses. -/
def emptyValues : AuditValues :=
  { sport_key := "soccer_epl", kickoff_utc := none, captured_at_utc := none,
    bookmaker := none, market := none, league_id := none, season := none,
    fixture_id := none, home_team_id := none, away_team_id := none,
    match_confidence := none, p_mkt_h := none, p_mkt_d := none,
    p_mkt_a := none, p_model_h := none, p_model_d := none, p_model_a := none,
    odds_h := none, odds_d := none, odds_a := none, best_side := none,
    best_ev := none, status := "incomplete", reason := none }

/-- Value fields of a successful evaluation, for witnesses. -/
def okValues : AuditValues :=
  { emptyValues with status := "ok", best_side := some Side.H }

/-- C2 witness: upserting key `("e1", "m1")` into a one-record store
holding that key overwrites the record in place (new values, new
`updated_at_utc = 9`, old `created_at_utc = 5`) and does not grow the
store. -/
theorem C2_audit_recorder_witness :
    findAudit (upsertAudit [⟨"e1", "m1", emptyValues, 5, 5⟩] "e1" "m1"
        okValues 9) "e1" "m1" =
      some ⟨"e1", "m1", okValues, 5, 9⟩ ∧
    (upsertAudit [⟨"e1", "m1", emptyValues, 5, 5⟩] "e1" "m1"
        okValues 9).length = 1 :=
  (C2_audit_recorder [⟨"e1", "m1", emptyValues, 5, 5⟩] "e1" "m1" okValues 9
      (List.pairwise_singleton _ _)).2.1
    ⟨"e1", "m1", emptyValues, 5, 5⟩ (by rfl)

/-! ## One Resolver→Normalizer→Evaluator→Recorder pass -/

/-- Provider-announced event identity (`odds.odds_events`). -/
structure OddsEvent where
  event_id : String
  sport_key : String
  commence_time_utc : Option ℤ
  home_name : String
  away_name : String
deriving DecidableEq, Repr

/-- Latest odds snapshot used for one evaluation
(`odds.odds_snapshots_1x2`). -/
structure SnapshotRow where
  bookmaker : Option String
  market : String
  odds : RawOdds
  captured_at_utc : ℤ
deriving DecidableEq, Repr

/-- The three odds as a triple when all are present. -/
def oddsTriple (o : RawOdds) : Option Triple :=
  match o.odds_home, o.odds_draw, o.odds_away with
  | some h, some d, some a => some ⟨h, d, a⟩
  | _, _, _ => none

/-- An incomplete market is exactly one the normalizer rejects. -/
theorem normalizeMarket_eq_none (o : RawOdds) (h : ¬ marketComplete o) :
    normalizeMarket o = none := by
  rcases o with ⟨(_ | oh), (_ | od), (_ | oa)⟩
  · rfl
  · rfl
  · rfl
  · rfl
  · rfl
  · rfl
  · rfl
  · simp only [normalizeMarket]
    rw [if_neg]
    rintro ⟨h1, h2, h3⟩
    exact h ⟨oh, od, oa, rfl, rfl, rfl, h1, h2, h3⟩

/-- Modelled from the spec: one Resolver→Normalizer→Evaluator pass
(§§4.2-4.4) producing the value fields of the audit record.  The
pipeline body is not under `src/`; its record schema
(`odds.audit_predictions`) and the `OddsIntelItem` status/reason
contract are.  Failure modes are checked in the spec's order
(§4.3): `missing_team_id`, then `missing_odds`, then `model_error`;
identity and odds fields already available are always persisted. -/
def evaluateEvent (ev : OddsEvent) (res : OddsResolved)
    (league_id season : Option ℤ) (snap : SnapshotRow)
    (model : Except String Triple) : AuditValues :=
  let base : AuditValues :=
    { sport_key := ev.sport_key, kickoff_utc := ev.commence_time_utc,
      captured_at_utc := some snap.captured_at_utc,
      bookmaker := snap.bookmaker, market := some snap.market,
      league_id := league_id, season := season,
      fixture_id := res.fixture_id, home_team_id := res.home_team_id,
      away_team_id := res.away_team_id,
      match_confidence := some res.match_confidence,
      p_mkt_h := none, p_mkt_d := none, p_mkt_a := none,
      p_model_h := none, p_model_d := none, p_model_a := none,
      odds_h := snap.odds.odds_home, odds_d := snap.odds.odds_draw,
      odds_a := snap.odds.odds_away,
      best_side := none, best_ev := none,
      status := "incomplete", reason := none }
  if res.home_team_id.isNone || res.away_team_id.isNone then
    { base with reason := some "missing_team_id" }
  else
    match oddsTriple snap.odds, normalizeMarket snap.odds, model with
    | some odds, some m, Except.ok p =>
        let best := bestPick (evDecimal p odds)
        { base with
          p_mkt_h := some m.novig.h, p_mkt_d := some m.novig.d,
          p_mkt_a := some m.novig.a,
          p_model_h := some p.h, p_model_d := some p.d,
          p_model_a := some p.a,
          best_side := some best.1, best_ev := some best.2,
          status := "ok", reason := none }
    | some _, some m, Except.error msg =>
        { base with
          p_mkt_h := some m.novig.h, p_mkt_d := some m.novig.d,
          p_mkt_a := some m.novig.a,
          reason := some ("model_error: " ++ msg) }
    | _, _, _ => { base with reason := some "missing_odds" }

/-- Modelled from the spec: one full processing cycle for an
`(event, artifact)` pair — evaluate, then record through the keyed
upsert (§2 control flow, §4.4). -/
def runCycle (store : List AuditRecord) (ev : OddsEvent) (afn : String)
    (res : OddsResolved) (league_id season : Option ℤ)
    (snap : SnapshotRow) (model : Except String Triple) (now : ℤ) :
    List AuditRecord :=
  upsertAudit store ev.event_id afn
    (evaluateEvent ev res league_id season snap model) now

/-- A positive `any` yields a `find?` result. -/
theorem find?_isSome_of_any (p : AuditRecord → Bool) :
    ∀ l : List AuditRecord, l.any p = true → ∃ r, l.find? p = some r := by
  intro l
  induction l with
  | nil => intro h; cases h
  | cons r t ih =>
      intro h
      by_cases hr : p r = true
      · exact ⟨r, List.find?_cons_of_pos _ hr⟩
      · rw [Bool.not_eq_true] at hr
        simp only [List.any_cons, hr, Bool.false_or] at h
        obtain ⟨r2, hr2⟩ := ih h
        exact ⟨r2, by rw [List.find?_cons_of_neg _ (by simp [hr]), hr2]⟩

/-- After an upsert the key is present, with the freshly written value
fields and timestamp. -/
theorem upsert_find_values (store : List AuditRecord) (eid art : String)
    (v : AuditValues) (now : ℤ) :
    ∃ r, findAudit (upsertAudit store eid art v now) eid art = some r ∧
      r.values = v ∧ r.updated_at_utc = now ∧
      r.event_id = eid ∧ r.artifact_filename = art := by
  unfold upsertAudit findAudit
  split_ifs with hany
  · obtain ⟨r0, hr0⟩ := find?_isSome_of_any _ store hany
    have hp : keyMatches eid art r0 = true := List.find?_some hr0
    rw [find?_map_keyPreserving (overwriteIf eid art v now)
      (keyMatches eid art) (keyMatches_overwriteIf eid art eid art v now),
      hr0]
    have hif : overwriteIf eid art v now r0 =
        { r0 with values := v, updated_at_utc := now } := by
      simp [overwriteIf, hp]
    rw [keyMatches_iff] at hp
    exact ⟨overwriteIf eid art v now r0, rfl,
      by rw [hif], by rw [hif], by rw [hif]; exact hp.1, by rw [hif]; exact hp.2⟩
  · rw [Bool.not_eq_true] at hany
    rw [find?_append_of_any_false _ _ _ hany]
    refine ⟨{ event_id := eid, artifact_filename := art, values := v,
              created_at_utc := now, updated_at_utc := now },
      ?_, rfl, rfl, rfl, rfl⟩
    simp [List.find?, keyMatches]

/-- Every key-matching record of an upserted store carries the written
value fields and timestamp. -/
theorem upsert_matching_values (store : List AuditRecord) (eid art : String)
    (v : AuditValues) (now : ℤ) :
    ∀ r ∈ upsertAudit store eid art v now, keyMatches eid art r = true →
      r.values = v ∧ r.updated_at_utc = now := by
  intro r hr hkey
  unfold upsertAudit at hr
  split_ifs at hr with hany
  · obtain ⟨r0, hr0m, hr0e⟩ := List.mem_map.mp hr
    by_cases h0 : keyMatches eid art r0 = true
    · rw [← hr0e]
      simp [overwriteIf, h0]
    · rw [Bool.not_eq_true] at h0
      have : r = r0 := by rw [← hr0e]; simp [overwriteIf, h0]
      subst this
      rw [hkey] at h0
      cases h0
  · rw [List.mem_append] at hr
    rcases hr with hr | hr
    · rw [Bool.not_eq_true] at hany
      have := (any_eq_false_iff (keyMatches eid art) store).mp hany r hr
      rw [hkey] at this
      cases this
    · simp only [List.mem_singleton] at hr
      subst hr
      exact ⟨rfl, rfl⟩

/-- After an upsert the store always answers `any` for the key. -/
theorem upsert_any (store : List AuditRecord) (eid art : String)
    (v : AuditValues) (now : ℤ) :
    (upsertAudit store eid art v now).any (keyMatches eid art) = true := by
  obtain ⟨r, hfind, _, _, he, ha⟩ := upsert_find_values store eid art v now
  exact List.any_eq_true.mpr ⟨r, List.mem_of_find?_eq_some hfind,
    List.find?_some hfind⟩

/-- Pointwise-equal functions map lists equally. -/
theorem map_congr_mem {α β : Type} (f g : α → β) :
    ∀ l : List α, (∀ a ∈ l, f a = g a) → l.map f = l.map g := by
  intro l
  induction l with
  | nil => intro _; rfl
  | cons a t ih =>
      intro h
      simp only [List.map_cons]
      rw [h a (List.mem_cons_self a t), ih (fun b hb => h b (List.mem_cons_of_mem a hb))]

/-- With both teams resolved but an incomplete market, the pass
produces exactly the base diagnostics with reason `missing_odds`. -/
theorem evaluateEvent_missing_odds (ev : OddsEvent) (res : OddsResolved)
    (lg se : Option ℤ) (snap : SnapshotRow) (model : Except String Triple)
    (hid aid : ℤ) (hh : res.home_team_id = some hid)
    (ha : res.away_team_id = some aid) (hmc : ¬ marketComplete snap.odds) :
    evaluateEvent ev res lg se snap model =
      { sport_key := ev.sport_key, kickoff_utc := ev.commence_time_utc,
        captured_at_utc := some snap.captured_at_utc,
        bookmaker := snap.bookmaker, market := some snap.market,
        league_id := lg, season := se,
        fixture_id := res.fixture_id, home_team_id := res.home_team_id,
        away_team_id := res.away_team_id,
        match_confidence := some res.match_confidence,
        p_mkt_h := none, p_mkt_d := none, p_mkt_a := none,
        p_model_h := none, p_model_d := none, p_model_a := none,
        odds_h := snap.odds.odds_home, odds_d := snap.odds.odds_draw,
        odds_a := snap.odds.odds_away,
        best_side := none, best_ev := none,
        status := "incomplete", reason := some "missing_odds" } := by
  have hnm := normalizeMarket_eq_none snap.odds hmc
  obtain ⟨bk, mkt, o, cap⟩ := snap
  simp only at hnm
  rcases o with ⟨(_ | oh), (_ | od), (_ | oa)⟩ <;>
    rcases model with msg | p <;>
      simp_all [evaluateEvent, oddsTriple, hh, ha]

/-- C4: when the market is incomplete (an odd null, zero or `≤ 1`) but
the teams are resolved, the pass short-circuits: the normalizer
produces nothing, the record carries status `incomplete` with reason
`missing_odds`, no market probabilities and no EV/best_side, while the
identity and odds fields already available are persisted — and the
recorded row for the key carries exactly these values.  (An input
failing earlier, with an unresolved team, instead carries
`missing_team_id` per spec §4.3, hence the resolved-team hypotheses.) -/
theorem C4_missing_odds_short_circuit (ev : OddsEvent) (res : OddsResolved)
    (lg se : Option ℤ) (snap : SnapshotRow) (model : Except String Triple)
    (hid aid : ℤ) (hh : res.home_team_id = some hid)
    (ha : res.away_team_id = some aid) (hmc : ¬ marketComplete snap.odds) :
    normalizeMarket snap.odds = none ∧
    (evaluateEvent ev res lg se snap model).status = "incomplete" ∧
    (evaluateEvent ev res lg se snap model).reason = some "missing_odds" ∧
    (evaluateEvent ev res lg se snap model).p_mkt_h = none ∧
    (evaluateEvent ev res lg se snap model).p_mkt_d = none ∧
    (evaluateEvent ev res lg se snap model).p_mkt_a = none ∧
    (evaluateEvent ev res lg se snap model).best_side = none ∧
    (evaluateEvent ev res lg se snap model).best_ev = none ∧
    (evaluateEvent ev res lg se snap model).odds_h = snap.odds.odds_home ∧
    (evaluateEvent ev res lg se snap model).odds_d = snap.odds.odds_draw ∧
    (evaluateEvent ev res lg se snap model).odds_a = snap.odds.odds_away ∧
    (evaluateEvent ev res lg se snap model).home_team_id = some hid ∧
    (evaluateEvent ev res lg se snap model).away_team_id = some aid ∧
    (evaluateEvent ev res lg se snap model).fixture_id = res.fixture_id ∧
    (evaluateEvent ev res lg se snap model).sport_key = ev.sport_key ∧
    (evaluateEvent ev res lg se snap model).kickoff_utc =
      ev.commence_time_utc ∧
    (evaluateEvent ev res lg se snap model).match_confidence =
      some res.match_confidence ∧
    (∀ (store : List AuditRecord) (afn : String) (now : ℤ),
      ∃ r, findAudit (runCycle store ev afn res lg se snap model now)
          ev.event_id afn = some r ∧
        r.values = evaluateEvent ev res lg se snap model) := by
  have hev := evaluateEvent_missing_odds ev res lg se snap model hid aid hh ha hmc
  refine ⟨normalizeMarket_eq_none snap.odds hmc, ?_⟩
  rw [hev, hh, ha]
  refine ⟨rfl, rfl, rfl, rfl, rfl, rfl, rfl, rfl, rfl, rfl, rfl, rfl, rfl,
    rfl, rfl, rfl, ?_⟩
  intro store afn now
  obtain ⟨r, hfind, hv, _, _, _⟩ := upsert_find_values store ev.event_id afn
    (evaluateEvent ev res lg se snap model) now
  exact ⟨r, hfind, by rw [hv, hev, hh, ha]⟩

/-- A concrete provider event, for witnesses. -/
def evExample : OddsEvent :=
  ⟨"e1", "soccer_epl", some 1000, "Liverpool", "Chelsea"⟩

/-- A fully resolved context, for witnesses. -/
def resExample : OddsResolved :=
  ⟨some 40, some 49, some 900002, MatchConfidence.EXACT⟩

/-- A snapshot whose draw odds are null, for witnesses. -/
def snapNoDraw : SnapshotRow :=
  ⟨some "bet365", "h2h", ⟨some 2, none, some 3⟩, 950⟩

/-- A complete snapshot, for witnesses. -/
def snapFull : SnapshotRow :=
  ⟨some "bet365", "h2h", ⟨some 2, some 4, some 4⟩, 950⟩

/-- C4 witness: `odds_draw = null` alone yields status `incomplete`
with reason `missing_odds`. -/
theorem C4_missing_odds_witness :
    (evaluateEvent evExample resExample none none snapNoDraw
      (Except.ok ⟨1/2, 1/4, 1/4⟩)).status = "incomplete" ∧
    (evaluateEvent evExample resExample none none snapNoDraw
      (Except.ok ⟨1/2, 1/4, 1/4⟩)).reason = some "missing_odds" := by
  have h := C4_missing_odds_short_circuit evExample resExample none none
    snapNoDraw (Except.ok ⟨1/2, 1/4, 1/4⟩) 40 49 rfl rfl
    (by rintro ⟨h', d', a', _, hdraw, _⟩; exact Option.noConfusion hdraw)
  exact ⟨h.2.1, h.2.2.1⟩

/-- C7: running the Resolver+Evaluator+Recorder pass twice on unchanged
inputs is idempotent — the second run only refreshes `updated_at_utc`
of the key's record, leaves every other record untouched, and does not
change the store size; the key's record after the second run is the
first run's record with only `updated_at_utc` replaced. -/
theorem C7_idempotence (store0 : List AuditRecord) (ev : OddsEvent)
    (afn : String) (res : OddsResolved) (lg se : Option ℤ)
    (snap : SnapshotRow) (model : Except String Triple) (t1 t2 : ℤ) :
    runCycle (runCycle store0 ev afn res lg se snap model t1)
        ev afn res lg se snap model t2 =
      (runCycle store0 ev afn res lg se snap model t1).map
        (fun r => if keyMatches ev.event_id afn r
                  then { r with updated_at_utc := t2 } else r) ∧
    (∃ r1, findAudit (runCycle store0 ev afn res lg se snap model t1)
        ev.event_id afn = some r1 ∧
      findAudit (runCycle (runCycle store0 ev afn res lg se snap model t1)
          ev afn res lg se snap model t2) ev.event_id afn =
        some { r1 with updated_at_utc := t2 }) ∧
    (runCycle (runCycle store0 ev afn res lg se snap model t1)
        ev afn res lg se snap model t2).length =
      (runCycle store0 ev afn res lg se snap model t1).length := by
  have hany : (runCycle store0 ev afn res lg se snap model t1).any
      (keyMatches ev.event_id afn) = true :=
    upsert_any store0 ev.event_id afn _ t1
  have h2 : runCycle (runCycle store0 ev afn res lg se snap model t1)
      ev afn res lg se snap model t2 =
      (runCycle store0 ev afn res lg se snap model t1).map
        (overwriteIf ev.event_id afn
          (evaluateEvent ev res lg se snap model) t2) :=
    upsert_existing _ _ _ _ _ hany
  refine ⟨?_, ?_, ?_⟩
  · rw [h2]
    apply map_congr_mem
    intro r hr
    unfold overwriteIf
    by_cases hk : keyMatches ev.event_id afn r = true
    · rw [if_pos hk, if_pos hk]
      obtain ⟨hv, _⟩ := upsert_matching_values store0 ev.event_id afn
        (evaluateEvent ev res lg se snap model) t1 r hr hk
      rw [← hv]
    · rw [if_neg hk, if_neg hk]
  · obtain ⟨r1, hfind1, hv1, _, _, _⟩ := upsert_find_values store0
      ev.event_id afn (evaluateEvent ev res lg se snap model) t1
    have hp1 : keyMatches ev.event_id afn r1 = true := List.find?_some hfind1
    refine ⟨r1, hfind1, ?_⟩
    rw [h2]
    unfold findAudit
    rw [find?_map_keyPreserving (overwriteIf ev.event_id afn
        (evaluateEvent ev res lg se snap model) t2)
      (keyMatches ev.event_id afn)
      (keyMatches_overwriteIf ev.event_id afn ev.event_id afn _ t2)]
    unfold findAudit at hfind1
    unfold runCycle
    rw [hfind1]
    simp only [Option.map_some', overwriteIf, if_pos hp1]
    rw [hv1]
  · rw [h2, List.length_map]

/-- C7 witness: two identical cycles on an initially empty store keep
exactly one record. -/
theorem C7_idempotence_witness :
    (runCycle (runCycle [] evExample "m1" resExample none none snapFull
        (Except.ok ⟨1/2, 1/4, 1/4⟩) 5)
      evExample "m1" resExample none none snapFull
        (Except.ok ⟨1/2, 1/4, 1/4⟩) 9).length =
    (runCycle [] evExample "m1" resExample none none snapFull
        (Except.ok ⟨1/2, 1/4, 1/4⟩) 5).length :=
  (C7_idempotence [] evExample "m1" resExample none none snapFull
    (Except.ok ⟨1/2, 1/4, 1/4⟩) 5 9).2.2

/-! ## Metrics Backfiller -/

/-- Modelled from the spec: outcome derivation (§4.5; the
`result_1x2`/`outcome` columns): `home>away→H`, equal→`D`,
`home<away→A`. -/
def outcomeOf (gh ga : ℤ) : Side :=
  if ga < gh then Side.H else if gh = ga then Side.D else Side.A

/-- One-hot encoding `y` of the actual outcome. -/
def oneHot : Side → Triple
  | Side.H => ⟨1, 0, 0⟩
  | Side.D => ⟨0, 1, 0⟩
  | Side.A => ⟨0, 0, 1⟩

/-- Modelled from the spec: Brier score (§4.5),
`Σ_i (p_model_i − y_i)^2`. -/
def brier (p : Triple) (o : Side) : ℚ :=
  (p.h - (oneHot o).h)^2 + (p.d - (oneHot o).d)^2 + (p.a - (oneHot o).a)^2

/-- Modelled from the spec: clamp of the outcome probability into
`[ε, 1]` with `ε = 1e-15` (§4.5). -/
def clampProb (x : ℚ) : ℚ := max (1/1000000000000000) (min x 1)

/-- Modelled from the spec: log-loss (§4.5),
`−ln(clamp(p_model_outcome, ε, 1))`. -/
noncomputable def logloss (p : Triple) (o : Side) : ℝ :=
  -Real.log ((clampProb (p.get o) : ℚ) : ℝ)

/-- Modelled from the spec: top-1 correctness (§4.5); the argmax over
the model triple uses the same fixed `H > D > A` preference as the
evaluator's pick. -/
def top1Acc (p : Triple) (o : Side) : ℚ :=
  if (bestPick p).1 = o then 1 else 0

/-- The Brier score of a probability triple is at most 2. -/
theorem brier_le_two (p : Triple) (o : Side) (hh : 0 ≤ p.h) (hd : 0 ≤ p.d)
    (ha : 0 ≤ p.a) (hsum : p.h + p.d + p.a = 1) : brier p o ≤ 2 := by
  cases o <;> simp only [brier, oneHot] <;>
    nlinarith [mul_nonneg hh hd, mul_nonneg hd ha, mul_nonneg hh ha,
      sq_nonneg p.h, sq_nonneg p.d, sq_nonneg p.a]

/-- C5: for a finished fixture with both goal counts the Backfiller
derives the outcome by goal comparison, computes the Brier score
`Σ_i (p_i − y_i)^2` (lying in `[0, 2]` for a probability triple), the
log-loss `−ln(clamp(p_outcome, 1e-15, 1))`, and top-1 accuracy equal
to 1 exactly when the model argmax matches the outcome; the uniform
triple under outcome `D` scores `2/3`. -/
theorem C5_metrics_backfiller (gh ga : ℤ) (p : Triple)
    (hh : 0 ≤ p.h) (hd : 0 ≤ p.d) (ha : 0 ≤ p.a)
    (hsum : p.h + p.d + p.a = 1) :
    (ga < gh → outcomeOf gh ga = Side.H) ∧
    (gh = ga → outcomeOf gh ga = Side.D) ∧
    (gh < ga → outcomeOf gh ga = Side.A) ∧
    brier p (outcomeOf gh ga) =
      (p.h - (oneHot (outcomeOf gh ga)).h)^2 +
      (p.d - (oneHot (outcomeOf gh ga)).d)^2 +
      (p.a - (oneHot (outcomeOf gh ga)).a)^2 ∧
    0 ≤ brier p (outcomeOf gh ga) ∧
    brier p (outcomeOf gh ga) ≤ 2 ∧
    logloss p (outcomeOf gh ga) =
      -Real.log ((max (1/1000000000000000)
        (min (p.get (outcomeOf gh ga)) 1) : ℚ) : ℝ) ∧
    (top1Acc p (outcomeOf gh ga) = 1 ↔
      (bestPick p).1 = outcomeOf gh ga) ∧
    brier ⟨1/3, 1/3, 1/3⟩ Side.D = 2/3 := by
  refine ⟨?_, ?_, ?_, rfl, ?_, brier_le_two p _ hh hd ha hsum, rfl, ?_, ?_⟩
  · intro h; simp [outcomeOf, h]
  · intro h
    simp [outcomeOf, h]
  · intro h
    have h1 : ¬ ga < gh := not_lt.mpr (le_of_lt h)
    have h2 : gh ≠ ga := ne_of_lt h
    simp [outcomeOf, h1, h2]
  · unfold brier
    positivity
  · unfold top1Acc
    split_ifs with hif <;> simp [hif]
  · norm_num [brier, oneHot]

/-- C5 witness at goals `(1, 1)` and the uniform model triple: the
outcome is `D` and the uniform triple's Brier score under `D` is
`2/3`. -/
theorem C5_metrics_backfiller_witness :
    outcomeOf 1 1 = Side.D ∧ brier ⟨1/3, 1/3, 1/3⟩ Side.D = 2/3 := by
  have h := C5_metrics_backfiller 1 1 ⟨1/3, 1/3, 1/3⟩ (by norm_num)
    (by norm_num) (by norm_num) (by norm_num)
  exact ⟨h.2.1 rfl, h.2.2.2.2.2.2.2.2⟩

/-! ## Identity Resolver tiers -/

/-- Modelled from the spec: tiered name resolution (§4.1) as an
ordered strategy chain — EXACT, then ILIKE, then FUZZY, first match
wins, `NONE` when all matchers fail.  Each abstract matcher yields the
team id it resolved, if any. -/
def resolveTeam (mExact mIlike mFuzzy : Option ℤ) :
    Option ℤ × MatchConfidence :=
  match mExact with
  | some t => (some t, MatchConfidence.EXACT)
  | none =>
      match mIlike with
      | some t => (some t, MatchConfidence.ILIKE)
      | none =>
          match mFuzzy with
          | some t => (some t, MatchConfidence.FUZZY)
          | none => (none, MatchConfidence.NONE)

/-- Numeric reliability rank of a confidence tier. -/
def confRank : MatchConfidence → ℕ
  | MatchConfidence.EXACT => 3
  | MatchConfidence.ILIKE => 2
  | MatchConfidence.FUZZY => 1
  | MatchConfidence.NONE => 0

/-- C6: every produced confidence value lies in
`{EXACT, ILIKE, FUZZY, NONE}`; the tiers are strictly ordered
`EXACT > ILIKE > FUZZY > NONE`; the tiers are tried in that order with
the first match winning; and an EXACT candidate beats a coexisting
FUZZY one. -/
theorem C6_confidence_tiers (mExact mIlike mFuzzy : Option ℤ) :
    ((resolveTeam mExact mIlike mFuzzy).2 = MatchConfidence.EXACT ∨
     (resolveTeam mExact mIlike mFuzzy).2 = MatchConfidence.ILIKE ∨
     (resolveTeam mExact mIlike mFuzzy).2 = MatchConfidence.FUZZY ∨
     (resolveTeam mExact mIlike mFuzzy).2 = MatchConfidence.NONE) ∧
    (confRank MatchConfidence.NONE < confRank MatchConfidence.FUZZY ∧
     confRank MatchConfidence.FUZZY < confRank MatchConfidence.ILIKE ∧
     confRank MatchConfidence.ILIKE < confRank MatchConfidence.EXACT) ∧
    (∀ t, mExact = some t →
      resolveTeam mExact mIlike mFuzzy = (some t, MatchConfidence.EXACT)) ∧
    (∀ t, mExact = none → mIlike = some t →
      resolveTeam mExact mIlike mFuzzy = (some t, MatchConfidence.ILIKE)) ∧
    (∀ t, mExact = none → mIlike = none → mFuzzy = some t →
      resolveTeam mExact mIlike mFuzzy = (some t, MatchConfidence.FUZZY)) ∧
    (mExact = none → mIlike = none → mFuzzy = none →
      resolveTeam mExact mIlike mFuzzy = (none, MatchConfidence.NONE)) ∧
    (∀ t u, mExact = some t → mFuzzy = some u →
      resolveTeam mExact mIlike mFuzzy = (some t, MatchConfidence.EXACT)) := by
  refine ⟨?_, ⟨by decide, by decide, by decide⟩, ?_, ?_, ?_, ?_, ?_⟩
  · rcases mExact with _ | t
    · rcases mIlike with _ | t
      · rcases mFuzzy with _ | t
        · exact Or.inr (Or.inr (Or.inr rfl))
        · exact Or.inr (Or.inr (Or.inl rfl))
      · exact Or.inr (Or.inl rfl)
    · exact Or.inl rfl
  · intro t h; rw [h]; rfl
  · intro t h1 h2; rw [h1, h2]; rfl
  · intro t h1 h2 h3; rw [h1, h2, h3]; rfl
  · intro h1 h2 h3; rw [h1, h2, h3]; rfl
  · intro t u h1 _; rw [h1]; rfl

/-- C6 witness: with an EXACT candidate `40` and a FUZZY candidate `7`
both present, the resolver selects the EXACT one. -/
theorem C6_confidence_tiers_witness :
    resolveTeam (some 40) none (some 7) = (some 40, MatchConfidence.EXACT) :=
  (C6_confidence_tiers (some 40) none (some 7)).2.2.2.2.2.2 40 7 rfl rfl

/-! ## Fixture resolution -/

/-- One `core.fixtures` row (`002_core_schema.sql`): identity, teams,
kickoff, score and status flags.  `is_cancelled` is kept nullable
because `team_season_stats_v1.sql` reads it through
`COALESCE(f.is_cancelled, false)`. -/
structure Fixture where
  fixture_id : ℤ
  league_id : ℤ
  season : ℤ
  home_team_id : ℤ
  away_team_id : ℤ
  kickoff_utc : ℤ
  goals_home : Option ℤ
  goals_away : Option ℤ
  is_finished : Bool
  is_cancelled : Option Bool
deriving DecidableEq, Repr

/-- "Closer kickoff, then lower fixture id" comparison key. -/
def fxKey (t : ℤ) (f : Fixture) : ℤ × ℤ := (|f.kickoff_utc - t|, f.fixture_id)

/-- Strict lexicographic order on comparison keys. -/
def keyLt (p q : ℤ × ℤ) : Prop := p.1 < q.1 ∨ (p.1 = q.1 ∧ p.2 < q.2)

/-- Non-strict lexicographic order on comparison keys. -/
def keyLe (p q : ℤ × ℤ) : Prop := p.1 < q.1 ∨ (p.1 = q.1 ∧ p.2 ≤ q.2)

instance (p q : ℤ × ℤ) : Decidable (keyLt p q) :=
  inferInstanceAs (Decidable (p.1 < q.1 ∨ (p.1 = q.1 ∧ p.2 < q.2)))

theorem keyLe_refl (p : ℤ × ℤ) : keyLe p p := Or.inr ⟨rfl, le_refl _⟩

theorem keyLe_of_not_lt {p q : ℤ × ℤ} (h : ¬ keyLt p q) : keyLe q p := by
  unfold keyLt at h
  unfold keyLe
  omega

theorem keyLe_trans {p q r : ℤ × ℤ} (h1 : keyLe p q) (h2 : keyLe q r) :
    keyLe p r := by
  unfold keyLe at h1 h2 ⊢
  omega

theorem keyLt_le {p q : ℤ × ℤ} (h : keyLt p q) : keyLe p q := by
  unfold keyLt at h
  unfold keyLe
  omega

/-- Modelled from the spec: choose among candidate fixtures the one
with kickoff closest to the event time, ties broken by lowest fixture
id (§4.1). -/
def pickBest (t : ℤ) : List Fixture → Option Fixture
  | [] => none
  | f :: rest =>
      match pickBest t rest with
      | none => some f
      | some g => if keyLt (fxKey t f) (fxKey t g) then some f else some g

theorem pickBest_eq_none {t : ℤ} :
    ∀ {l : List Fixture}, pickBest t l = none ↔ l = [] := by
  intro l
  cases l with
  | nil => simp [pickBest]
  | cons f rest =>
      simp only [pickBest]
      constructor
      · intro h
        rcases hr : pickBest t rest with _ | g <;> rw [hr] at h
        · cases h
        · have h2 : (if keyLt (fxKey t f) (fxKey t g) then some f
              else some g) = none := h
          split_ifs at h2
      · intro h; cases h

theorem pickBest_spec {t : ℤ} :
    ∀ {l : List Fixture} {f : Fixture}, pickBest t l = some f →
      f ∈ l ∧ ∀ g ∈ l, keyLe (fxKey t f) (fxKey t g) := by
  intro l
  induction l with
  | nil => intro f h; cases h
  | cons x rest ih =>
      intro f h
      simp only [pickBest] at h
      rcases hr : pickBest t rest with _ | g <;> rw [hr] at h
      · have hrest : rest = [] := pickBest_eq_none.mp hr
        subst hrest
        cases h
        refine ⟨List.mem_singleton_self x, ?_⟩
        intro g hg
        rw [List.mem_singleton] at hg
        subst hg
        exact keyLe_refl _
      · obtain ⟨hgmem, hgmin⟩ := ih hr
        have h2 : (if keyLt (fxKey t x) (fxKey t g) then some x
            else some g) = some f := h
        split_ifs at h2 with hlt
        · cases h2
          refine ⟨List.mem_cons_self x rest, ?_⟩
          intro g2 hg2
          rcases List.mem_cons.mp hg2 with hm | hm
          · subst hm; exact keyLe_refl _
          · exact keyLe_trans (keyLt_le hlt) (hgmin g2 hm)
        · cases h2
          refine ⟨List.mem_cons_of_mem x hgmem, ?_⟩
          intro g2 hg2
          rcases List.mem_cons.mp hg2 with hm | hm
          · subst hm; exact keyLe_of_not_lt hlt
          · exact hgmin g2 hm

/-- Candidate fixtures for an event: same two teams, kickoff within
the tolerance window of `commence_time_utc`. -/
def fixtureCandidates (cat : List Fixture) (hid aid t tol : ℤ) :
    List Fixture :=
  cat.filter (fun f => decide (f.home_team_id = hid) &&
    decide (f.away_team_id = aid) && decide (|f.kickoff_utc - t| ≤ tol))

/-- Modelled from the spec: fixture resolution (§4.1) — not under
`src/`; only the `resolved_fixture_id` column it fills is.  Among the
candidates, pick the one with kickoff closest to `commence_time_utc`,
ties by lowest fixture id; `none` when there is no candidate. -/
def resolveFixture (cat : List Fixture) (hid aid t tol : ℤ) : Option ℤ :=
  (pickBest t (fixtureCandidates cat hid aid t tol)).map Fixture.fixture_id

theorem mem_fixtureCandidates {cat : List Fixture} {hid aid t tol : ℤ}
    {f : Fixture} :
    f ∈ fixtureCandidates cat hid aid t tol ↔
      f ∈ cat ∧ f.home_team_id = hid ∧ f.away_team_id = aid ∧
        |f.kickoff_utc - t| ≤ tol := by
  simp [fixtureCandidates, List.mem_filter, and_assoc]

/-- C8: fixture resolution is a deterministic function of catalog and
event; with no candidate the resolved fixture id stays null, otherwise
it names a candidate fixture whose kickoff distance (then fixture id)
is minimal among all candidates. -/
theorem C8_fixture_resolution (cat : List Fixture) (hid aid t tol : ℤ) :
    (fixtureCandidates cat hid aid t tol = [] →
      resolveFixture cat hid aid t tol = none) ∧
    (fixtureCandidates cat hid aid t tol ≠ [] →
      ∃ f, resolveFixture cat hid aid t tol = some f.fixture_id ∧
        f ∈ cat ∧ f.home_team_id = hid ∧ f.away_team_id = aid ∧
        |f.kickoff_utc - t| ≤ tol ∧
        ∀ g ∈ cat, g.home_team_id = hid → g.away_team_id = aid →
          |g.kickoff_utc - t| ≤ tol →
          (|f.kickoff_utc - t| < |g.kickoff_utc - t| ∨
           (|f.kickoff_utc - t| = |g.kickoff_utc - t| ∧
            f.fixture_id ≤ g.fixture_id))) ∧
    resolveFixture cat hid aid t tol = resolveFixture cat hid aid t tol := by
  refine ⟨?_, ?_, rfl⟩
  · intro h
    unfold resolveFixture
    rw [h]
    rfl
  · intro h
    rcases hp : pickBest t (fixtureCandidates cat hid aid t tol) with _ | f
    · exact absurd (pickBest_eq_none.mp hp) h
    · obtain ⟨hmem, hmin⟩ := pickBest_spec hp
      rw [mem_fixtureCandidates] at hmem
      refine ⟨f, ?_, hmem.1, hmem.2.1, hmem.2.2.1, hmem.2.2.2, ?_⟩
      · unfold resolveFixture
        rw [hp]
        rfl
      · intro g hg h1 h2 h3
        have : g ∈ fixtureCandidates cat hid aid t tol :=
          mem_fixtureCandidates.mpr ⟨hg, h1, h2, h3⟩
        have hle := hmin g this
        simpa [keyLe, fxKey] using hle

/-- Candidate catalog for the C8 witness: two fixtures with the same
team pair equally distant from the event time (ids 10 and 7), and one
for another pair. -/
def catExample : List Fixture :=
  [⟨10, 39, 2024, 1, 2, 100, none, none, false, some false⟩,
   ⟨7, 39, 2024, 1, 2, 100, none, none, false, some false⟩,
   ⟨3, 39, 2024, 5, 6, 100, none, none, false, some false⟩]

/-- C8 witness: on `catExample` with teams `(1, 2)`, time 100 and
tolerance 360 the resolver returns a minimal candidate — concretely
fixture id 7, the lower of the two tied ids. -/
theorem C8_fixture_resolution_witness :
    (∃ f, resolveFixture catExample 1 2 100 360 = some f.fixture_id ∧
      f ∈ catExample ∧ f.home_team_id = 1 ∧ f.away_team_id = 2 ∧
      |f.kickoff_utc - 100| ≤ 360 ∧
      ∀ g ∈ catExample, g.home_team_id = 1 → g.away_team_id = 2 →
        |g.kickoff_utc - 100| ≤ 360 →
        (|f.kickoff_utc - 100| < |g.kickoff_utc - 100| ∨
         (|f.kickoff_utc - 100| = |g.kickoff_utc - 100| ∧
          f.fixture_id ≤ g.fixture_id))) ∧
    resolveFixture catExample 1 2 100 360 = some 7 :=
  ⟨(C8_fixture_resolution catExample 1 2 100 360).2.1 (by decide), by decide⟩

/-! ## team_season_stats_v1 aggregation -/

/-- `finished` CTE filter of `team_season_stats_v1.sql`:
`is_finished = true AND COALESCE(is_cancelled, false) = false`. -/
def finishedOk (f : Fixture) : Bool :=
  f.is_finished && !(f.is_cancelled.getD false)

/-- SQL `CASE WHEN x > y THEN 1 ELSE 0 END` on nullable integers: a
NULL comparison is not true, so the ELSE branch applies. -/
def caseGt (x y : Option ℤ) : ℤ :=
  match x, y with
  | some a, some b => if b < a then 1 else 0
  | _, _ => 0

/-- SQL `CASE WHEN x = y THEN 1 ELSE 0 END` on nullable integers. -/
def caseEq (x y : Option ℤ) : ℤ :=
  match x, y with
  | some a, some b => if a = b then 1 else 0
  | _, _ => 0

/-- One row of the `team_rows` CTE. -/
structure TeamRow where
  league_id : ℤ
  season : ℤ
  team_id : ℤ
  played : ℤ
  wins : ℤ
  draws : ℤ
  losses : ℤ
  goals_for : Option ℤ
  goals_against : Option ℤ
  is_home : ℤ
deriving DecidableEq, Repr

/-- Home-perspective row of the `team_rows` CTE. -/
def homeRow (f : Fixture) : TeamRow :=
  { league_id := f.league_id, season := f.season,
    team_id := f.home_team_id, played := 1,
    wins := caseGt f.goals_home f.goals_away,
    draws := caseEq f.goals_home f.goals_away,
    losses := caseGt f.goals_away f.goals_home,
    goals_for := f.goals_home, goals_against := f.goals_away,
    is_home := 1 }

/-- Away-perspective row of the `team_rows` CTE. -/
def awayRow (f : Fixture) : TeamRow :=
  { league_id := f.league_id, season := f.season,
    team_id := f.away_team_id, played := 1,
    wins := caseGt f.goals_away f.goals_home,
    draws := caseEq f.goals_away f.goals_home,
    losses := caseGt f.goals_home f.goals_away,
    goals_for := f.goals_away, goals_against := f.goals_home,
    is_home := 0 }

/-- The `team_rows` CTE over an input fixture list. -/
def teamRows (fs : List Fixture) : List TeamRow :=
  (fs.filter finishedOk).flatMap (fun f => [homeRow f, awayRow f])

/-- One output row of the aggregation (the columns of
`core.team_season_stats`). -/
structure StatsRow where
  league_id : ℤ
  season : ℤ
  team_id : ℤ
  played : ℤ
  wins : ℤ
  draws : ℤ
  losses : ℤ
  goals_for : ℤ
  goals_against : ℤ
  goal_diff : ℤ
  points : ℤ
  points_per_game : ℚ
  home_played : ℤ
  home_wins : ℤ
  home_draws : ℤ
  home_losses : ℤ
  home_goals_for : ℤ
  home_goals_against : ℤ
  home_points : ℤ
  away_played : ℤ
  away_wins : ℤ
  away_draws : ℤ
  away_losses : ℤ
  away_goals_for : ℤ
  away_goals_against : ℤ
  away_points : ℤ

/-- `team_rows` restricted to one `GROUP BY (league_id, season,
team_id)` key. -/
def rowsFor (fs : List Fixture) (lg se tm : ℤ) : List TeamRow :=
  (teamRows fs).filter (fun r => decide (r.league_id = lg) &&
    decide (r.season = se) && decide (r.team_id = tm))

/-- Integer `SUM` over grouped rows. -/
def sumBy (rs : List TeamRow) (g : TeamRow → ℤ) : ℤ := (rs.map g).sum

/-- The SELECT of `team_season_stats_v1.sql` for one group key.  SQL
`SUM` skips NULL `goals_for`/`goals_against` values; they are read
through `getD 0`, which agrees with SQL except that an all-NULL group
would sum to SQL NULL rather than 0 (such a row could not be inserted
into the NOT NULL columns of `core.team_season_stats` anyway). -/
def teamSeasonStatsRow (fs : List Fixture) (lg se tm : ℤ) : StatsRow :=
  let rs := rowsFor fs lg se tm
  let w := sumBy rs (fun r => r.wins)
  let d := sumBy rs (fun r => r.draws)
  let l := sumBy rs (fun r => r.losses)
  let pl := sumBy rs (fun r => r.played)
  let gf := sumBy rs (fun r => r.goals_for.getD 0)
  let ga := sumBy rs (fun r => r.goals_against.getD 0)
  let hw := sumBy rs (fun r => if r.is_home = 1 then r.wins else 0)
  let hd := sumBy rs (fun r => if r.is_home = 1 then r.draws else 0)
  let aw := sumBy rs (fun r => if r.is_home = 0 then r.wins else 0)
  let ad := sumBy rs (fun r => if r.is_home = 0 then r.draws else 0)
  { league_id := lg, season := se, team_id := tm,
    played := pl, wins := w, draws := d, losses := l,
    goals_for := gf, goals_against := ga, goal_diff := gf - ga,
    points := w * 3 + d,
    points_per_game := if 0 < pl then ((w * 3 + d : ℤ) : ℚ) / (pl : ℚ) else 0,
    home_played := sumBy rs (fun r => if r.is_home = 1 then r.played else 0),
    home_wins := hw, home_draws := hd,
    home_losses := sumBy rs (fun r => if r.is_home = 1 then r.losses else 0),
    home_goals_for :=
      sumBy rs (fun r => if r.is_home = 1 then r.goals_for.getD 0 else 0),
    home_goals_against :=
      sumBy rs (fun r => if r.is_home = 1 then r.goals_against.getD 0 else 0),
    home_points := hw * 3 + hd,
    away_played := sumBy rs (fun r => if r.is_home = 0 then r.played else 0),
    away_wins := aw, away_draws := ad,
    away_losses := sumBy rs (fun r => if r.is_home = 0 then r.losses else 0),
    away_goals_for :=
      sumBy rs (fun r => if r.is_home = 0 then r.goals_for.getD 0 else 0),
    away_goals_against :=
      sumBy rs (fun r => if r.is_home = 0 then r.goals_against.getD 0 else 0),
    away_points := aw * 3 + ad }

/-- Pointwise-equal summands give equal sums. -/
theorem sumBy_congr {rs : List TeamRow} {g1 g2 : TeamRow → ℤ}
    (h : ∀ r ∈ rs, g1 r = g2 r) : sumBy rs g1 = sumBy rs g2 := by
  unfold sumBy
  rw [map_congr_mem g1 g2 rs h]

/-- `SUM` distributes over pointwise addition. -/
theorem sumBy_add (rs : List TeamRow) (g1 g2 : TeamRow → ℤ) :
    sumBy rs (fun r => g1 r + g2 r) = sumBy rs g1 + sumBy rs g2 := by
  unfold sumBy
  induction rs with
  | nil => rfl
  | cons r t ih =>
      simp only [List.map_cons, List.sum_cons, ih]
      ring

/-- Origin of a `team_rows` row: a finished, uncancelled fixture seen
from the home or the away side. -/
theorem mem_teamRows {fs : List Fixture} {r : TeamRow}
    (h : r ∈ teamRows fs) :
    ∃ f ∈ fs, finishedOk f = true ∧ (r = homeRow f ∨ r = awayRow f) := by
  unfold teamRows at h
  rw [List.mem_flatMap] at h
  obtain ⟨f, hf, hr⟩ := h
  rw [List.mem_filter] at hf
  refine ⟨f, hf.1, hf.2, ?_⟩
  rcases List.mem_cons.mp hr with h1 | h1
  · exact Or.inl h1
  · rw [List.mem_singleton] at h1
    exact Or.inr h1

/-- Rows of a grouped key whose fixture has both goal counts satisfy
`played = wins + draws + losses`, and their `is_home` flag is 0/1. -/
theorem rowsFor_wdl (fs : List Fixture) (lg se tm : ℤ)
    (hgoals : ∀ f ∈ fs, finishedOk f = true →
      (∃ x, f.goals_home = some x) ∧ ∃ y, f.goals_away = some y) :
    ∀ r ∈ rowsFor fs lg se tm,
      r.played = r.wins + r.draws + r.losses ∧
      (r.is_home = 1 ∨ r.is_home = 0) := by
  intro r hr
  unfold rowsFor at hr
  rw [List.mem_filter] at hr
  obtain ⟨f, hf, hfin, hor⟩ := mem_teamRows hr.1
  obtain ⟨⟨gh, hgh⟩, ga, hga⟩ := hgoals f hf hfin
  rcases hor with h1 | h1 <;> subst h1
  · refine ⟨?_, Or.inl rfl⟩
    simp only [homeRow, caseGt, caseEq, hgh, hga]
    split_ifs <;> omega
  · refine ⟨?_, Or.inr rfl⟩
    simp only [awayRow, caseGt, caseEq, hgh, hga]
    split_ifs <;> omega

/-- Splitting a sum into wins+draws+losses columns. -/
theorem sum_wdl (rs : List TeamRow)
    (h : ∀ r ∈ rs, r.played = r.wins + r.draws + r.losses) :
    sumBy rs (fun r => r.played) =
      sumBy rs (fun r => r.wins) + sumBy rs (fun r => r.draws) +
        sumBy rs (fun r => r.losses) := by
  rw [← sumBy_add, ← sumBy_add]
  exact sumBy_congr h

/-- Same split under an `is_home` guard. -/
theorem sum_wdl_guarded (rs : List TeamRow) (c : ℤ)
    (h : ∀ r ∈ rs, r.played = r.wins + r.draws + r.losses) :
    sumBy rs (fun r => if r.is_home = c then r.played else 0) =
      sumBy rs (fun r => if r.is_home = c then r.wins else 0) +
        sumBy rs (fun r => if r.is_home = c then r.draws else 0) +
        sumBy rs (fun r => if r.is_home = c then r.losses else 0) := by
  rw [← sumBy_add, ← sumBy_add]
  apply sumBy_congr
  intro r hr
  by_cases hc : r.is_home = c
  · simp only [if_pos hc]
    exact h r hr
  · simp only [if_neg hc]
    ring

/-- Total `played` splits into the home and away guards. -/
theorem sum_home_away (rs : List TeamRow)
    (h : ∀ r ∈ rs, r.is_home = 1 ∨ r.is_home = 0) :
    sumBy rs (fun r => r.played) =
      sumBy rs (fun r => if r.is_home = 1 then r.played else 0) +
        sumBy rs (fun r => if r.is_home = 0 then r.played else 0) := by
  rw [← sumBy_add]
  apply sumBy_congr
  intro r hr
  rcases h r hr with h1 | h1 <;> rw [h1] <;> norm_num

/-- Non-contributing fixtures (not finished, or cancelled) leave the
`team_rows` CTE unchanged. -/
theorem teamRows_cons_not_finished (f : Fixture) (fs : List Fixture)
    (h : finishedOk f = false) : teamRows (f :: fs) = teamRows fs := by
  unfold teamRows
  rw [List.filter_cons, if_neg (by simp [h])]

/-- C9 (amended): provided every finished, uncancelled input fixture
has both goal counts set, every aggregation row satisfies the
`core.team_season_stats` CHECK identities — `played = wins + draws +
losses`, `goal_diff = goals_for − goals_against`,
`points = 3·wins + draws`, the home/away analogues, and
`played = home_played + away_played` — and a fixture that is not
finished (or is cancelled) contributes to no count. -/
theorem C9_team_season_stats (fs : List Fixture) (lg se tm : ℤ)
    (hgoals : ∀ f ∈ fs, finishedOk f = true →
      (∃ x, f.goals_home = some x) ∧ ∃ y, f.goals_away = some y) :
    (teamSeasonStatsRow fs lg se tm).played =
      (teamSeasonStatsRow fs lg se tm).wins +
      (teamSeasonStatsRow fs lg se tm).draws +
      (teamSeasonStatsRow fs lg se tm).losses ∧
    (teamSeasonStatsRow fs lg se tm).goal_diff =
      (teamSeasonStatsRow fs lg se tm).goals_for -
      (teamSeasonStatsRow fs lg se tm).goals_against ∧
    (teamSeasonStatsRow fs lg se tm).points =
      3 * (teamSeasonStatsRow fs lg se tm).wins +
      (teamSeasonStatsRow fs lg se tm).draws ∧
    (teamSeasonStatsRow fs lg se tm).home_played =
      (teamSeasonStatsRow fs lg se tm).home_wins +
      (teamSeasonStatsRow fs lg se tm).home_draws +
      (teamSeasonStatsRow fs lg se tm).home_losses ∧
    (teamSeasonStatsRow fs lg se tm).home_points =
      3 * (teamSeasonStatsRow fs lg se tm).home_wins +
      (teamSeasonStatsRow fs lg se tm).home_draws ∧
    (teamSeasonStatsRow fs lg se tm).away_played =
      (teamSeasonStatsRow fs lg se tm).away_wins +
      (teamSeasonStatsRow fs lg se tm).away_draws +
      (teamSeasonStatsRow fs lg se tm).away_losses ∧
    (teamSeasonStatsRow fs lg se tm).away_points =
      3 * (teamSeasonStatsRow fs lg se tm).away_wins +
      (teamSeasonStatsRow fs lg se tm).away_draws ∧
    (teamSeasonStatsRow fs lg se tm).played =
      (teamSeasonStatsRow fs lg se tm).home_played +
      (teamSeasonStatsRow fs lg se tm).away_played ∧
    (∀ f, finishedOk f = false →
      teamSeasonStatsRow (f :: fs) lg se tm =
        teamSeasonStatsRow fs lg se tm) := by
  have hrows := rowsFor_wdl fs lg se tm hgoals
  have hwdl : ∀ r ∈ rowsFor fs lg se tm,
      r.played = r.wins + r.draws + r.losses :=
    fun r hr => (hrows r hr).1
  have hhome : ∀ r ∈ rowsFor fs lg se tm,
      r.is_home = 1 ∨ r.is_home = 0 :=
    fun r hr => (hrows r hr).2
  simp only [teamSeasonStatsRow]
  refine ⟨sum_wdl _ hwdl, trivial, by ring, sum_wdl_guarded _ 1 hwdl, by ring,
    sum_wdl_guarded _ 0 hwdl, by ring, sum_home_away _ hhome, ?_⟩
  intro f hf
  have hrw : rowsFor (f :: fs) lg se tm = rowsFor fs lg se tm := by
    unfold rowsFor
    rw [teamRows_cons_not_finished f fs hf]
  rw [hrw]

/-- A finished, uncancelled fixture whose away goal count is NULL
(the situation flagged by validation query 5,
"finished sem placar"). -/
def fxNoScore : Fixture :=
  ⟨1, 10, 2024, 100, 200, 0, some 1, none, true, some false⟩

/-- C9 counterexample: with `fxNoScore` as input, the home team's row
has `played = 1` but `wins = draws = losses = 0` (every SQL CASE
comparison against NULL falls to ELSE 0), so
`played = wins + draws + losses` fails — the claim does not hold over
arbitrary input fixtures. -/
theorem C9_counterexample :
    (teamSeasonStatsRow [fxNoScore] 10 2024 100).played = 1 ∧
    (teamSeasonStatsRow [fxNoScore] 10 2024 100).wins +
      (teamSeasonStatsRow [fxNoScore] 10 2024 100).draws +
      (teamSeasonStatsRow [fxNoScore] 10 2024 100).losses = 0 ∧
    ¬ ((teamSeasonStatsRow [fxNoScore] 10 2024 100).played =
      (teamSeasonStatsRow [fxNoScore] 10 2024 100).wins +
      (teamSeasonStatsRow [fxNoScore] 10 2024 100).draws +
      (teamSeasonStatsRow [fxNoScore] 10 2024 100).losses) := by
  refine ⟨?_, ?_, ?_⟩ <;> decide

/-- A finished fixture with a full score line, for the C9 witness. -/
def fxScored : Fixture :=
  ⟨1, 10, 2024, 100, 200, 0, some 2, some 1, true, some false⟩

/-- C9 witness: on the single finished fixture `fxScored` the home
team's aggregation row satisfies `played = wins + draws + losses`. -/
theorem C9_team_season_stats_witness :
    (teamSeasonStatsRow [fxScored] 10 2024 100).played =
      (teamSeasonStatsRow [fxScored] 10 2024 100).wins +
      (teamSeasonStatsRow [fxScored] 10 2024 100).draws +
      (teamSeasonStatsRow [fxScored] 10 2024 100).losses :=
  (C9_team_season_stats [fxScored] 10 2024 100
    (by
      intro f hf _
      rw [List.mem_singleton] at hf
      subst hf
      exact ⟨⟨2, rfl⟩, 1, rfl⟩)).1

/-! ## Odds Intel bucketing -/

/-- Status and reason fields of one `OddsIntelItem`
(`contracts.ts` lines 184-196), the parts consumed by the bucketing
loop of `OddsIntel.tsx`. -/
structure IntelItem where
  event_id : String
  status : String
  reason : Option String
deriving DecidableEq, Repr

/-- One step of the bucketing loop of `OddsIntel.tsx` (lines 70-74):
`status === "ok"` goes to the OK bucket, otherwise
`reason === "missing_team_id"` to the missing-team bucket, anything
else to the model-error bucket. -/
def bucketStep (b : List IntelItem × List IntelItem × List IntelItem)
    (it : IntelItem) : List IntelItem × List IntelItem × List IntelItem :=
  if it.status = "ok" then (b.1 ++ [it], b.2.1, b.2.2)
  else if it.reason = some "missing_team_id" then
    (b.1, b.2.1 ++ [it], b.2.2)
  else (b.1, b.2.1, b.2.2 ++ [it])

/-- The `buckets` computation of `OddsIntel.tsx` (lines 64-76): a
single pass over the response items pushing each into one of the
`ok` / `missingTeam` / `modelError` lists. -/
def buckets (items : List IntelItem) :
    List IntelItem × List IntelItem × List IntelItem :=
  items.foldl bucketStep ([], [], [])

/-- Closed form of the bucketing fold from any accumulator. -/
theorem foldl_bucketStep (items : List IntelItem) :
    ∀ acc : List IntelItem × List IntelItem × List IntelItem,
      items.foldl bucketStep acc =
        (acc.1 ++ items.filter (fun it => decide (it.status = "ok")),
         acc.2.1 ++ items.filter (fun it => !decide (it.status = "ok") &&
           decide (it.reason = some "missing_team_id")),
         acc.2.2 ++ items.filter (fun it => !decide (it.status = "ok") &&
           !decide (it.reason = some "missing_team_id"))) := by
  induction items with
  | nil => intro acc; simp
  | cons it t ih =>
      intro acc
      rw [List.foldl_cons, ih]
      unfold bucketStep
      by_cases h1 : it.status = "ok"
      · simp [h1, List.filter_cons]
      · by_cases h2 : it.reason = some "missing_team_id" <;>
          simp [h1, h2, List.filter_cons]

/-- The three bucket predicates partition any item list by length. -/
theorem bucket_filter_lengths (items : List IntelItem) :
    (items.filter (fun it => decide (it.status = "ok"))).length +
      (items.filter (fun it => !decide (it.status = "ok") &&
        decide (it.reason = some "missing_team_id"))).length +
      (items.filter (fun it => !decide (it.status = "ok") &&
        !decide (it.reason = some "missing_team_id"))).length =
      items.length := by
  induction items with
  | nil => rfl
  | cons it t ih =>
      by_cases h1 : it.status = "ok" <;>
        by_cases h2 : it.reason = some "missing_team_id" <;>
          · simp [List.filter_cons, h1, h2]
            omega

/-- C10: the Odds Intel view's bucketing sends status-`ok` items to
the OK ranking, non-ok items with reason `missing_team_id` to the
missing-team list, and every other non-ok item — including reason
`missing_odds` — to the model-errors list; the three buckets are the
corresponding filters of the input and their sizes sum to the item
count. -/
theorem C10_intel_buckets (items : List IntelItem) :
    (buckets items).1 =
      items.filter (fun it => decide (it.status = "ok")) ∧
    (buckets items).2.1 =
      items.filter (fun it => !decide (it.status = "ok") &&
        decide (it.reason = some "missing_team_id")) ∧
    (buckets items).2.2 =
      items.filter (fun it => !decide (it.status = "ok") &&
        !decide (it.reason = some "missing_team_id")) ∧
    (buckets items).1.length + (buckets items).2.1.length +
      (buckets items).2.2.length = items.length ∧
    (∀ it ∈ items, it.status = "ok" → it ∈ (buckets items).1) ∧
    (∀ it ∈ items, it.status ≠ "ok" →
      it.reason = some "missing_team_id" → it ∈ (buckets items).2.1) ∧
    (∀ it ∈ items, it.status ≠ "ok" →
      it.reason ≠ some "missing_team_id" → it ∈ (buckets items).2.2) ∧
    (∀ it ∈ items, it.status ≠ "ok" →
      it.reason = some "missing_odds" → it ∈ (buckets items).2.2) := by
  have hb := foldl_bucketStep items ([], [], [])
  have h1 : (buckets items).1 =
      items.filter (fun it => decide (it.status = "ok")) := by
    unfold buckets
    rw [hb]
    simp
  have h2 : (buckets items).2.1 =
      items.filter (fun it => !decide (it.status = "ok") &&
        decide (it.reason = some "missing_team_id")) := by
    unfold buckets
    rw [hb]
    simp
  have h3 : (buckets items).2.2 =
      items.filter (fun it => !decide (it.status = "ok") &&
        !decide (it.reason = some "missing_team_id")) := by
    unfold buckets
    rw [hb]
    simp
  refine ⟨h1, h2, h3, ?_, ?_, ?_, ?_, ?_⟩
  · rw [h1, h2, h3]
    exact bucket_filter_lengths items
  · intro it hit hst
    rw [h1, List.mem_filter]
    exact ⟨hit, by simp [hst]⟩
  · intro it hit hst hr
    rw [h2, List.mem_filter]
    exact ⟨hit, by simp [hst, hr]⟩
  · intro it hit hst hr
    rw [h3, List.mem_filter]
    exact ⟨hit, by simp [hst, hr]⟩
  · intro it hit hst hr
    rw [h3, List.mem_filter]
    refine ⟨hit, ?_⟩
    have : it.reason ≠ some "missing_team_id" := by
      rw [hr]
      intro hcon
      have := Option.some.inj hcon
      exact absurd this (by decide)
    simp [hst, this]

/-- Item list for the C10 witness: one of each kind, the third being a
`missing_odds` item. -/
def itemsExample : List IntelItem :=
  [⟨"e1", "ok", none⟩,
   ⟨"e2", "incomplete", some "missing_team_id"⟩,
   ⟨"e3", "incomplete", some "missing_odds"⟩]

/-- C10 witness: on `itemsExample` the bucket sizes sum to 3 and the
`missing_odds` item lands in the model-errors bucket. -/
theorem C10_intel_buckets_witness :
    (buckets itemsExample).1.length + (buckets itemsExample).2.1.length +
      (buckets itemsExample).2.2.length = itemsExample.length ∧
    (⟨"e3", "incomplete", some "missing_odds"⟩ : IntelItem) ∈
      (buckets itemsExample).2.2 :=
  ⟨(C10_intel_buckets itemsExample).2.2.2.1,
   (C10_intel_buckets itemsExample).2.2.2.2.2.2.2
     ⟨"e3", "incomplete", some "missing_odds"⟩ (by decide) (by decide) rfl⟩

end PrevIA
